import Mathlib

/-!
Shallow embedding of the inventory-ledger core of the
Central-de-Equipamentos application (src/App.tsx).

The source file concatenates three near-duplicate variants of the app:
  * variant 1 (lines 1-573): sharing / read-only variant (`AppContent`,
    `checkAuth`, `dispatchWithHistory` with a mutating-action filter,
    `isItemActive` without the `qt` field, undo via a refresh button that
    restores `history[0]` without popping);
  * variant 2 (lines 575-1569): base variant (`isItemActive` including
    `qt`, guarded `handleAddItem`, `handleUndo` that pops the history
    stack, unconditional push in `dispatchWithHistory`);
  * variant 3 (lines 1571-2447): same reducer, quantity-summing footer.

The `dataReducer` is identical in all three variants (variant 1 adds an
out-of-band photo-store deletion side effect in DELETE_ITEMS, which does
not touch the ledger value and is out of scope here).

JavaScript objects keyed by strings are embedded as association lists
`List (String × α)` with JS-object semantics: lookup finds the unique
binding for a key, update replaces in place, adding a fresh key appends.
`generateId()` (a nondeterministic fresh-id source) is embedded as an
explicit `gen : Nat → String` parameter supplying the ids generated
during one reducer step.
-/

/-- One equipment row: `{ id, qt, contract, serial, photos }` in the source. -/
structure EquipmentItem where
  id : String
  qt : String
  contract : String
  serial : String
  photos : List String
deriving DecidableEq, Repr

/-- `DailyData`: fixed category name ↦ ordered item list (a JS object). -/
abbrev DailyData := List (String × List EquipmentItem)

/-- `AppData`: day-key `YYYY-MM-DD` ↦ `DailyData` (a JS object). -/
abbrev AppData := List (String × DailyData)

/-- JS object property read `obj[key]`: first binding for the key, if any. -/
def lookupA {α : Type} : List (String × α) → String → Option α
  | [], _ => none
  | (k, v) :: rest, key => if k = key then some v else lookupA rest key

/-- JS object property write `obj[key] = v`: replace the existing binding
in place, or append a binding for a fresh key. -/
def setA {α : Type} : List (String × α) → String → α → List (String × α)
  | [], key, v => [(key, v)]
  | (k, w) :: rest, key, v =>
      if k = key then (key, v) :: rest else (k, w) :: setA rest key v

/-- Modelled from the spec: the fixed, closed set of equipment categories
(`CATEGORIES` lives in the repository's `constants.ts`, which is not under
`src/`; the spec describes "a fixed, closed set of equipment categories"
for set-top boxes, sound boxes, remotes, cameras and SIM chips). The
claims below do not depend on the particular names. -/
def CATEGORIES : List String :=
  ["BOX", "BOX SOUND", "CONTROLE", "CAMERA", "CHIP"]

/-- A freshly created blank row `{ id, qt: '', contract: '', serial: '', photos: [] }`. -/
def blankItem (i : String) : EquipmentItem :=
  { id := i, qt := "", contract := "", serial := "", photos := [] }

/-- `createEmptyDailyData()`: every category bound to a one-element list
holding a fresh blank item (the source first builds empty lists and then
pushes one blank item per category; the net result is embedded). -/
def createEmptyDailyData (gen : Nat → String) : DailyData :=
  CATEGORIES.enum.map (fun p => (p.2, [blankItem (gen p.1)]))

/-- The six reducer action kinds (the `Action` union type of the source). -/
inductive LAction where
  | setData (payload : AppData)
  | ensureDayData (date : String) (dayData : DailyData)
  | addItem (date : String) (category : String)
  | updateItem (date : String) (category : String) (item : EquipmentItem)
  | deleteItems (date : String) (category : String) (itemIds : List String)
  | clearAllData

/-- The four user-edit action kinds (`['ADD_ITEM', 'UPDATE_ITEM',
'DELETE_ITEMS', 'CLEAR_ALL_DATA'].includes(action.type)` in variant 1). -/
def isMutatingAction : LAction → Bool
  | .addItem _ _ => true
  | .updateItem _ _ _ => true
  | .deleteItems _ _ _ => true
  | .clearAllData => true
  | _ => false

/-- `dataReducer(state, action)` (src/App.tsx lines 156-206 and the
identical copies at 615-670 and 1653-1695).  The JSON deep copies of the
source create structurally equal values, so they are identities in this
embedding.  `gen` supplies the `generateId()` results used by the step:
`gen 0` is the id of the item pushed by ADD_ITEM or of the blank refill
row of DELETE_ITEMS; `gen (i+1)` are the ids used by
`createEmptyDailyData()` when ADD_ITEM lazily creates an absent day.
When ADD_ITEM targets a category key absent from the day record the
source would throw on `.push`; the embedding totalizes that corner with
an empty list, and theorems about ADD_ITEM assume the key is present. -/
def dataReducer (gen : Nat → String) (state : AppData) (action : LAction) : AppData :=
  match action with
  | .setData payload => payload
  | .ensureDayData date dayData =>
      match lookupA state date with
      | some _ => state
      | none => setA state date dayData
  | .addItem date category =>
      let dayD := (lookupA state date).getD (createEmptyDailyData (fun i => gen (i + 1)))
      let items := (lookupA dayD category).getD []
      setA state date (setA dayD category (items ++ [blankItem (gen 0)]))
  | .updateItem date category item =>
      match lookupA state date with
      | none => state
      | some dayD =>
          match lookupA dayD category with
          | none => state
          | some items =>
              let newItems :=
                match items.findIdx? (fun i => i.id == item.id) with
                | some k => items.set k item
                | none => items ++ [item]
              setA state date (setA dayD category newItems)
  | .deleteItems date category itemIds =>
      match lookupA state date with
      | none => state
      | some dayD =>
          match lookupA dayD category with
          | none => state
          | some items =>
              let filtered := items.filter (fun i => !(itemIds.contains i.id))
              let newItems := if filtered.isEmpty then [blankItem (gen 0)] else filtered
              setA state date (setA dayD category newItems)
  | .clearAllData => []

/-- The JS `String.prototype.trim()`: strip leading and trailing
whitespace (embedded structurally over the character list so that it is
kernel-computable; `String.trim` of the Lean library is extensionally
the same on ASCII data but is defined by well-founded recursion). -/
def trimStr (s : String) : String :=
  ⟨((s.data.dropWhile Char.isWhitespace).reverse.dropWhile Char.isWhitespace).reverse⟩

/-- `isItemActive` of variant 1 (line 208): `qt` does not count. -/
def isItemActive (item : EquipmentItem) : Bool :=
  trimStr item.contract != "" || trimStr item.serial != "" || !item.photos.isEmpty

/-- `isItemActive` of variants 2 and 3 (lines 672 and 1697): `qt` counts. -/
def isItemActiveQt (item : EquipmentItem) : Bool :=
  trimStr item.qt != "" || trimStr item.contract != "" || trimStr item.serial != "" ||
    !item.photos.isEmpty

/-- `checkDuplicate(appData, value, currentId)` (lines 128-144): the
guard `!value || value.length < 3` collapses to the length test because
the empty string has length `0 < 3`. -/
def checkDuplicate (appData : AppData) (value : String) (currentId : String) : Bool :=
  if value.length < 3 then false
  else
    appData.any (fun day =>
      day.2.any (fun cat =>
        cat.2.any (fun item =>
          item.id != currentId && (item.serial == value || item.contract == value))))

/-- `calculateTotal` of variant 1's `SummaryFooter` (line 431): the count
of active items across all category lists
(`Object.values(d).flat().filter(isItemActive).length`). -/
def calculateTotal (d : DailyData) : Nat :=
  ((d.map Prod.snd).flatten.filter isItemActive).length

/-- `d.toString().padStart(2, '0')` for a natural number. -/
def pad2 (n : Nat) : String :=
  if n < 10 then "0" ++ toString n else toString n

/-- The day key `` `${year}-${monthStr}-${dayStr}` `` built by `totalMonth`
(line 441), with `month` already 1-based (the source computes
`getMonth() + 1`). -/
def dateKeyOf (year month day : Nat) : String :=
  toString year ++ "-" ++ pad2 month ++ "-" ++ pad2 day

/-- `totalMonth` of variant 1's `SummaryFooter` (lines 433-445), with the
anchor date already parsed into its year and 1-based month: the source
loops `d = 1..31`, looks each padded day key of the anchor's month up in
the ledger and sums `calculateTotal` of every day that is stored.  The
anchor's day-of-month is never consulted. -/
def totalMonthYM (allData : AppData) (year month : Nat) : Nat :=
  ((List.range 31).map (fun i =>
      match lookupA allData (dateKeyOf year month (i + 1)) with
      | some dd => calculateTotal dd
      | none => 0)).sum

/-- Decimal value of a digit sequence (the numeric reading used by the
`Date` component extraction below). -/
def digitsToNat (cs : List Char) : Nat :=
  cs.foldl (fun n c => n * 10 + (c.toNat - 48)) 0

/-- `new Date(s + 'T00:00:00').getFullYear()` for a well-formed local
`YYYY-MM-DD` day key: the leading four digits. -/
def yearOf (s : String) : Nat := digitsToNat (s.data.take 4)

/-- `new Date(s + 'T00:00:00').getMonth() + 1` for a well-formed key:
the two digits after the first dash, read 1-based. -/
def monthOf (s : String) : Nat := digitsToNat ((s.data.drop 5).take 2)

/-- `new Date(s + 'T00:00:00').getDate()` for a well-formed key: the two
digits after the second dash. -/
def dayOf (s : String) : Nat := digitsToNat ((s.data.drop 8).take 2)

/-- `totalMonth` of variant 1's `SummaryFooter` on the anchor day-key
string itself (`currentDate` is `getFormattedDate(currentDate)`,
a `YYYY-MM-DD` string). -/
def totalMonth (allData : AppData) (currentDate : String) : Nat :=
  totalMonthYM allData (yearOf currentDate) (monthOf currentDate)

/-- Modelled from the spec's words, for comparison with `totalMonth`:
`monthToDateTotal(ledger, anchorDate)` is the sum of `dayTotal` over
every day-key in the ledger whose year and month match the anchor's and
whose day-of-month is at most the anchor's day-of-month. -/
def monthToDateTotalSpec (allData : AppData) (anchorDate : String) : Nat :=
  ((allData.filter (fun p =>
      yearOf p.1 == yearOf anchorDate && monthOf p.1 == monthOf anchorDate &&
        dayOf p.1 ≤ dayOf anchorDate)).map
    (fun p => calculateTotal p.2)).sum

/-- Decides whether a stored key is exactly one of the 31 padded day keys
of the given year and month (the keys `totalMonth`'s loop can hit). -/
def isMonthDayKey (year month : Nat) (k : String) : Bool :=
  (List.range 31).any (fun i => k == dateKeyOf year month (i + 1))

/-- Variant 1 session state: the ledger, the undo history stack, the
read-only flag of the sharing state machine, and whether the
request-edit-access handshake has been offered to the caller
(`setConfirmation` inside `checkAuth`). -/
structure Session1 where
  appData : AppData
  history : List AppData
  isReadOnly : Bool
  requestOffered : Bool
deriving Repr

/-- Variant 1 `dispatchWithHistory` (lines 306-315) together with
`checkAuth` (lines 278-304): a user-edit action is intercepted in
read-only mode (the reducer is not invoked; the request handshake is
offered instead); otherwise the current ledger is pushed onto the
history (`[appData, ...prev].slice(0, 10)`) and the action applied.
Non-edit actions are dispatched directly. -/
def dispatchWithHistory1 (gen : Nat → String) (s : Session1) (a : LAction) : Session1 :=
  if isMutatingAction a then
    if s.isReadOnly then { s with requestOffered := true }
    else { s with
            appData := dataReducer gen s.appData a,
            history := (s.appData :: s.history).take 10 }
  else { s with appData := dataReducer gen s.appData a }

/-- Variant 1's undo button (line 334):
`if (history.length > 0) dispatch({type: 'SET_DATA', payload: history[0]})` —
it restores the top snapshot but never pops it, and does nothing at all
when the history is empty. -/
def undoButton1 (s : Session1) : Session1 :=
  match s.history with
  | [] => s
  | prev :: _ => { s with appData := prev }

/-- Variant 1's autosave effect (line 274): the ledger is written to
local storage only when
`!isReadOnly && Object.keys(appData).length > 0 && settings.autoSave`. -/
def autosaveWrites1 (s : Session1) (autoSave : Bool) : Bool :=
  !s.isReadOnly && !s.appData.isEmpty && autoSave

/-- Variant 2 session state: the ledger and the undo history stack. -/
structure Session2 where
  appData : AppData
  history : List AppData
deriving Repr

/-- Variant 2 `dispatchWithHistory` (lines 694-697): unconditionally
push the pre-mutation ledger (truncated to 10 snapshots) and apply the
action.  In variant 2 every call site passes one of the four user-edit
actions. -/
def dispatchWithHistory2 (gen : Nat → String) (s : Session2) (a : LAction) : Session2 :=
  { appData := dataReducer gen s.appData a,
    history := (s.appData :: s.history).take 10 }

/-- Variant 2 `handleUndo` (lines 754-763): pop the front snapshot and
restore it; with empty history leave the state unchanged and report
"Nenhuma ação para desfazer" (the returned flag). -/
def handleUndo2 (s : Session2) : Session2 × Bool :=
  match s.history with
  | [] => (s, true)
  | prev :: rest => ({ appData := prev, history := rest }, false)

/-- Variant 3 `handleUndo` (lines 1766-1773): pop the front snapshot and
restore it; with empty history it silently does nothing — the `if` has
no else branch, so nothing is reported. -/
def handleUndo3 (s : Session2) : Session2 :=
  match s.history with
  | [] => s
  | prev :: rest => { appData := prev, history := rest }

/-- Variant 2 `handleAddItem` (lines 742-750): read the current day's
record (`appData[formattedDate] || createEmptyDailyData()`, blank ids
drawn from `genView`), take the category's last row, and dispatch
ADD_ITEM only when there is no last row or the last row is active. -/
def handleAddItem2 (genView genAct : Nat → String) (s : Session2)
    (date category : String) : Session2 :=
  match ((lookupA ((lookupA s.appData date).getD (createEmptyDailyData genView))
      category).getD []).getLast? with
  | none => dispatchWithHistory2 genAct s (.addItem date category)
  | some last =>
      if isItemActiveQt last then dispatchWithHistory2 genAct s (.addItem date category)
      else s

/-- Run a sequence of user edits through variant 2's
`dispatchWithHistory`, each with its own `generateId()` source. -/
def runMutations2 (s : Session2) : List ((Nat → String) × LAction) → Session2
  | [] => s
  | (g, a) :: rest => runMutations2 (dispatchWithHistory2 g s a) rest

/-- Press variant 2's undo button `n` times. -/
def undoTimes2 (s : Session2) : Nat → Session2
  | 0 => s
  | n + 1 => undoTimes2 (handleUndo2 s).1 n

/-- Press variant 3's undo button `n` times. -/
def undoTimes3 (s : Session2) : Nat → Session2
  | 0 => s
  | n + 1 => undoTimes3 (handleUndo3 s) n

/-- The ledger after folding a list of edits through the reducer. -/
def applyOps (L : AppData) : List ((Nat → String) × LAction) → AppData
  | [] => L
  | (g, a) :: rest => applyOps (dataReducer g L a) rest

/-- The ledger states seen immediately before each edit of a sequence. -/
def prefixStates (L : AppData) : List ((Nat → String) × LAction) → List AppData
  | [] => []
  | (g, a) :: rest => L :: prefixStates (dataReducer g L a) rest

/-! ### Basic association-list lemmas -/

theorem lookupA_setA_self {α : Type} (l : List (String × α)) (k : String) (v : α) :
    lookupA (setA l k v) k = some v := by
  induction l with
  | nil => simp [setA, lookupA]
  | cons hd tl ih =>
      obtain ⟨k', w⟩ := hd
      by_cases h : k' = k
      · simp [setA, h, lookupA]
      · simp [setA, h, lookupA, ih]

theorem lookupA_setA_ne {α : Type} (l : List (String × α)) (k k' : String) (v : α)
    (h : k' ≠ k) : lookupA (setA l k v) k' = lookupA l k' := by
  induction l with
  | nil =>
      simp only [setA, lookupA]
      rw [if_neg (Ne.symm h)]
  | cons hd tl ih =>
      obtain ⟨k0, w⟩ := hd
      by_cases h0 : k0 = k
      · subst h0
        simp only [setA, if_pos rfl, lookupA]
        rw [if_neg (Ne.symm h), if_neg (Ne.symm h)]
      · simp only [setA, if_neg h0, lookupA]
        by_cases h1 : k0 = k'
        · simp [h1]
        · simp [h1, ih]

theorem lookupA_eq_none_of_not_mem {α : Type} (l : List (String × α)) (k : String)
    (h : k ∉ l.map Prod.fst) : lookupA l k = none := by
  induction l with
  | nil => rfl
  | cons hd tl ih =>
      simp only [List.map_cons, List.mem_cons] at h
      push_neg at h
      obtain ⟨k0, w⟩ := hd
      simp only [lookupA]
      rw [if_neg (by simpa using (Ne.symm h.1)), ih h.2]

/-! ### C4 — EnsureDay is idempotent and never overwrites -/

/-- C4: for every ledger `L`, day `d` and blank record `b`, if `d` is
already present then `ENSURE_DAY_DATA` returns `L` unchanged, and
applying it twice in a row yields the same ledger as applying it once
(idempotence), for any `generateId` sources. -/
theorem ensureDay_idempotent (g g' : Nat → String) (L : AppData) (d : String)
    (b : DailyData) :
    ((lookupA L d).isSome = true → dataReducer g L (.ensureDayData d b) = L) ∧
      dataReducer g' (dataReducer g L (.ensureDayData d b)) (.ensureDayData d b) =
        dataReducer g L (.ensureDayData d b) := by
  constructor
  · intro h
    cases hl : lookupA L d with
    | none => rw [hl] at h; simp at h
    | some dd => simp [dataReducer, hl]
  · cases hl : lookupA L d with
    | none => simp [dataReducer, hl, lookupA_setA_self]
    | some dd => simp [dataReducer, hl]

/-- C4 witness: concrete instance with the day already present. -/
theorem ensureDay_idempotent_witness :
    dataReducer (fun _ => "g") [("2024-03-01", [("BOX", [blankItem "x"])])]
        (.ensureDayData "2024-03-01" []) = [("2024-03-01", [("BOX", [blankItem "x"])])] :=
  (ensureDay_idempotent (fun _ => "g") (fun _ => "g")
      [("2024-03-01", [("BOX", [blankItem "x"])])] "2024-03-01" []).1 (by decide)

/-! ### C6 — the duplicate detector -/

/-- C6: `checkDuplicate(L, v, x)` is true iff `v` has length ≥ 3 and some
item anywhere in the ledger with an id other than `x` has `contract` or
`serial` equal to `v`; in particular it is false whenever `v` is shorter
than 3 characters, and an item never collides with itself. -/
theorem checkDuplicate_iff (L : AppData) (v x : String) :
    checkDuplicate L v x = true ↔
      3 ≤ v.length ∧ ∃ day ∈ L, ∃ cat ∈ day.2, ∃ item ∈ cat.2,
        item.id ≠ x ∧ (item.contract = v ∨ item.serial = v) := by
  unfold checkDuplicate
  by_cases h : v.length < 3
  · simp only [if_pos h]
    constructor
    · intro hf; exact absurd hf (by simp)
    · rintro ⟨h3, -⟩; omega
  · simp only [if_neg h, List.any_eq_true, Bool.and_eq_true, Bool.or_eq_true,
      bne_iff_ne, beq_iff_eq]
    constructor
    · rintro ⟨day, hday, cat, hcat, item, hitem, hne, hor⟩
      exact ⟨by omega, day, hday, cat, hcat, item, hitem, hne, hor.symm⟩
    · rintro ⟨-, day, hday, cat, hcat, item, hitem, hne, hor⟩
      exact ⟨day, hday, cat, hcat, item, hitem, hne, hor.symm⟩

/-! ### C8 — the activity predicate -/

/-- The concrete row that separates the two `isItemActive` variants:
only its quantity field is filled in. -/
def qtOnlyItem : EquipmentItem :=
  { id := "q1", qt := "7", contract := "", serial := "", photos := [] }

/-- C8 counterexample: for variant 1's `isItemActive` (line 208) the
claimed equivalence fails at a row whose only non-blank field is the
quantity — the code reports it inactive. -/
theorem isItemActive_claim_fails_on_qt :
    ¬ (isItemActive qtOnlyItem = true ↔
        (trimStr qtOnlyItem.qt ≠ "" ∨ trimStr qtOnlyItem.contract ≠ "" ∨
          trimStr qtOnlyItem.serial ≠ "" ∨ qtOnlyItem.photos ≠ [])) := by
  decide

/-- C8 amended: variant 2/3's `isItemActive` (lines 672, 1697) is true
iff one of quantity, contract or serial is non-blank after trimming or
the photo list is non-empty; variant 1's `isItemActive` (line 208) is
the same predicate with the quantity field excluded. -/
theorem isItemActive_characterization (item : EquipmentItem) :
    (isItemActiveQt item = true ↔
      (trimStr item.qt ≠ "" ∨ trimStr item.contract ≠ "" ∨ trimStr item.serial ≠ "" ∨
        item.photos ≠ [])) ∧
    (isItemActive item = true ↔
      (trimStr item.contract ≠ "" ∨ trimStr item.serial ≠ "" ∨ item.photos ≠ [])) := by
  constructor <;>
    simp [isItemActive, isItemActiveQt, Bool.or_eq_true, bne_iff_ne,
      List.isEmpty_iff, or_assoc]

/-! ### C5 — DeleteItems removes exactly the listed ids and refills -/

/-- C5: `DELETE_ITEMS` on an existing day/category removes precisely the
items whose ids are listed; if that empties the list a single fresh blank
item is inserted, and the blank is inactive; other days and categories
are untouched, and the operation preserves "no category list is empty"
across the whole ledger. -/
theorem deleteItems_spec (gen : Nat → String) (L : AppData) (date cat : String)
    (ids : List String) (dayD : DailyData) (items : List EquipmentItem)
    (hd : lookupA L date = some dayD) (hc : lookupA dayD cat = some items) :
    (lookupA ((lookupA (dataReducer gen L (.deleteItems date cat ids)) date).getD []) cat
        = some (if (items.filter (fun i => !(ids.contains i.id))).isEmpty
                then [blankItem (gen 0)]
                else items.filter (fun i => !(ids.contains i.id)))) ∧
    ((∀ i ∈ items, ids.contains i.id = true) →
       lookupA ((lookupA (dataReducer gen L (.deleteItems date cat ids)) date).getD []) cat
           = some [blankItem (gen 0)] ∧
         isItemActive (blankItem (gen 0)) = false) ∧
    (∀ d, d ≠ date →
       lookupA (dataReducer gen L (.deleteItems date cat ids)) d = lookupA L d) ∧
    (∀ c, c ≠ cat →
       lookupA ((lookupA (dataReducer gen L (.deleteItems date cat ids)) date).getD []) c
         = lookupA dayD c) ∧
    ((∀ d dd, lookupA L d = some dd → ∀ c l, lookupA dd c = some l → l ≠ []) →
       ∀ d dd, lookupA (dataReducer gen L (.deleteItems date cat ids)) d = some dd →
         ∀ c l, lookupA dd c = some l → l ≠ []) := by
  have hred : dataReducer gen L (.deleteItems date cat ids)
      = setA L date (setA dayD cat
          (if (items.filter (fun i => !(ids.contains i.id))).isEmpty
           then [blankItem (gen 0)]
           else items.filter (fun i => !(ids.contains i.id)))) := by
    simp [dataReducer, hd, hc]
  refine ⟨?_, ?_, ?_, ?_, ?_⟩
  · rw [hred, lookupA_setA_self]
    simp [lookupA_setA_self]
  · intro hall
    have hfil : items.filter (fun i => !(ids.contains i.id)) = [] := by
      rw [List.filter_eq_nil_iff]
      intro a ha
      have := hall a ha
      simp only [List.contains_eq_any_beq, List.any_eq_true, beq_iff_eq] at this
      simp only [Bool.not_eq_true', Bool.not_eq_false, List.contains_eq_any_beq,
        List.any_eq_true, beq_iff_eq]
      exact this
    rw [hred, lookupA_setA_self]
    simp only [Option.getD_some]
    rw [lookupA_setA_self, hfil]
    exact ⟨rfl, rfl⟩
  · intro d hdne
    rw [hred, lookupA_setA_ne _ _ _ _ hdne]
  · intro c hcne
    rw [hred, lookupA_setA_self]
    simp [lookupA_setA_ne _ _ _ _ hcne]
  · intro hinv d dd hdd c l hl
    rw [hred] at hdd
    by_cases hdx : d = date
    · subst hdx
      rw [lookupA_setA_self] at hdd
      injection hdd with hdd2
      subst hdd2
      by_cases hcx : c = cat
      · subst hcx
        rw [lookupA_setA_self] at hl
        injection hl with hl2
        subst hl2
        by_cases hemp : (items.filter (fun i => !(ids.contains i.id))).isEmpty = true
        · rw [if_pos hemp]
          simp
        · rw [if_neg hemp]
          intro he
          rw [he] at hemp
          simp at hemp
      · rw [lookupA_setA_ne _ _ _ _ hcx] at hl
        exact hinv d dayD hd c l hl
    · rw [lookupA_setA_ne _ _ _ _ hdx] at hdd
      exact hinv d dd hdd c l hl

/-- C5 witness: deleting the only item of a category leaves exactly one
fresh inactive blank row. -/
theorem deleteItems_spec_witness :
    lookupA ((lookupA (dataReducer (fun _ => "f")
        [("2024-03-01", [("BOX", [⟨"a", "", "", "SN", []⟩])])]
        (.deleteItems "2024-03-01" "BOX" ["a"])) "2024-03-01").getD []) "BOX"
        = some [blankItem "f"] ∧
      isItemActive (blankItem "f") = false :=
  (deleteItems_spec (fun _ => "f")
      [("2024-03-01", [("BOX", [⟨"a", "", "", "SN", []⟩])])] "2024-03-01" "BOX" ["a"]
      [("BOX", [⟨"a", "", "", "SN", []⟩])] [⟨"a", "", "", "SN", []⟩]
      (by decide) (by decide)).2.1 (by decide)

/-! ### C7 — missing day/category is a no-op; UpdateItem upserts -/

/-- C7: `UPDATE_ITEM` and `DELETE_ITEMS` return the ledger unchanged when
the named day or category list is absent; when both exist, `UPDATE_ITEM`
replaces the first item with matching id and otherwise appends the given
item. -/
theorem update_delete_noop_upsert (gen : Nat → String) (L : AppData)
    (date cat : String) (item : EquipmentItem) (ids : List String) :
    (lookupA L date = none →
       dataReducer gen L (.updateItem date cat item) = L ∧
       dataReducer gen L (.deleteItems date cat ids) = L) ∧
    (∀ dayD, lookupA L date = some dayD → lookupA dayD cat = none →
       dataReducer gen L (.updateItem date cat item) = L ∧
       dataReducer gen L (.deleteItems date cat ids) = L) ∧
    (∀ dayD items, lookupA L date = some dayD → lookupA dayD cat = some items →
       ((∀ i ∈ items, i.id ≠ item.id) →
          lookupA ((lookupA (dataReducer gen L (.updateItem date cat item)) date).getD [])
              cat = some (items ++ [item])) ∧
       (∀ k, items.findIdx? (fun i => i.id == item.id) = some k →
          lookupA ((lookupA (dataReducer gen L (.updateItem date cat item)) date).getD [])
              cat = some (items.set k item))) := by
  refine ⟨?_, ?_, ?_⟩
  · intro h
    constructor <;> simp [dataReducer, h]
  · intro dayD hd hc
    constructor <;> simp [dataReducer, hd, hc]
  · intro dayD items hd hc
    constructor
    · intro hno
      have hnone : items.findIdx? (fun i => i.id == item.id) = none := by
        rw [List.findIdx?_eq_none_iff]
        intro i hi
        simpa using hno i hi
      simp [dataReducer, hd, hc, hnone, lookupA_setA_self]
    · intro k hk
      simp [dataReducer, hd, hc, hk, lookupA_setA_self]

/-- C7 witness: updating a missing day is a no-op on the empty ledger. -/
theorem update_delete_noop_upsert_witness :
    dataReducer (fun _ => "g") [] (.updateItem "2024-03-01" "BOX" (blankItem "n")) = [] ∧
      dataReducer (fun _ => "g") [] (.deleteItems "2024-03-01" "BOX" ["n"]) = [] :=
  (update_delete_noop_upsert (fun _ => "g") [] "2024-03-01" "BOX" (blankItem "n")
      ["n"]).1 (by decide)

/-! ### C3 — the undo history is a bounded, most-recent-first stack -/

/-- C3: `dispatchWithHistory` keeps the history at ≤ 10 snapshots; a
non-edit action (`SET_DATA` / `ENSURE_DAY_DATA`) never pushes; an edit
action in editable mode pushes the pre-mutation ledger in front and,
when the stack already holds 10 snapshots, evicts the oldest (last)
one. -/
theorem historyStack_bounded (gen : Nat → String) (s : Session1) (a : LAction) :
    (s.history.length ≤ 10 → (dispatchWithHistory1 gen s a).history.length ≤ 10) ∧
    (isMutatingAction a = false → (dispatchWithHistory1 gen s a).history = s.history) ∧
    (∀ P, (dispatchWithHistory1 gen s (.setData P)).history = s.history) ∧
    (∀ d b, (dispatchWithHistory1 gen s (.ensureDayData d b)).history = s.history) ∧
    (isMutatingAction a = true → s.isReadOnly = false →
       (dispatchWithHistory1 gen s a).history = (s.appData :: s.history).take 10 ∧
       (s.history.length = 10 →
          (dispatchWithHistory1 gen s a).history = s.appData :: s.history.dropLast)) := by
  refine ⟨?_, ?_, ?_, ?_, ?_⟩
  · intro h10
    unfold dispatchWithHistory1
    by_cases hm : isMutatingAction a = true
    · rw [if_pos hm]
      by_cases hr : s.isReadOnly = true
      · simp [hr, h10]
      · simp only [Bool.not_eq_true] at hr
        simp [hr, List.length_take]
    · simp only [Bool.not_eq_true] at hm
      simp [dispatchWithHistory1, hm, h10]
  · intro hm
    simp [dispatchWithHistory1, hm]
  · intro P
    simp [dispatchWithHistory1, isMutatingAction]
  · intro d b
    simp [dispatchWithHistory1, isMutatingAction]
  · intro hm hr
    have hbase : (dispatchWithHistory1 gen s a).history
        = (s.appData :: s.history).take 10 := by
      simp [dispatchWithHistory1, hm, hr]
    refine ⟨hbase, fun hlen => ?_⟩
    rw [hbase, List.take_succ_cons, List.dropLast_eq_take, hlen]

/-- C3 witness: a concrete edit in editable mode with a full stack of 10
snapshots keeps the bound and evicts the oldest snapshot. -/
theorem historyStack_bounded_witness :
    (dispatchWithHistory1 (fun _ => "g")
        ⟨[], [[], [], [], [], [], [], [], [], [], [("d", [])]], false, false⟩
        .clearAllData).history.length ≤ 10 ∧
      (dispatchWithHistory1 (fun _ => "g")
          ⟨[], [[], [], [], [], [], [], [], [], [], [("d", [])]], false, false⟩
          .clearAllData).history
        = [] :: [[], [], [], [], [], [], [], [], [], [("d", [])]].dropLast := by
  constructor
  · exact (historyStack_bounded (fun _ => "g")
      ⟨[], [[], [], [], [], [], [], [], [], [], [("d", [])]], false, false⟩
      .clearAllData).1 (by decide)
  · exact (((historyStack_bounded (fun _ => "g")
      ⟨[], [[], [], [], [], [], [], [], [], [], [("d", [])]], false, false⟩
      .clearAllData).2.2.2.2 rfl rfl).2 (by decide))

/-! ### C9 — ReadOnly blocks edits and persistence -/

/-- C9: in the `ReadOnly` state every user-edit dispatch is intercepted:
the reducer is not invoked (ledger and history unchanged) and the
request-edit handshake is offered instead; the autosave effect never
writes while read-only, and a write implies the session is editable. -/
theorem readOnly_blocks_edits (gen : Nat → String) (s : Session1) (a : LAction)
    (autoSave : Bool) :
    (s.isReadOnly = true → isMutatingAction a = true →
       (dispatchWithHistory1 gen s a).appData = s.appData ∧
       (dispatchWithHistory1 gen s a).history = s.history ∧
       (dispatchWithHistory1 gen s a).requestOffered = true ∧
       (dispatchWithHistory1 gen s a).isReadOnly = true) ∧
    (s.isReadOnly = true → autosaveWrites1 s autoSave = false) ∧
    (autosaveWrites1 s autoSave = true → s.isReadOnly = false) := by
  refine ⟨?_, ?_, ?_⟩
  · intro hr hm
    simp [dispatchWithHistory1, hm, hr]
  · intro hr
    simp [autosaveWrites1, hr]
  · intro hw
    simp only [autosaveWrites1, Bool.and_eq_true, Bool.not_eq_true'] at hw
    exact hw.1.1

/-- C9 witness: a concrete read-only session rejects a clear-all edit and
never autosaves. -/
theorem readOnly_blocks_edits_witness :
    (dispatchWithHistory1 (fun _ => "g") ⟨[("d", [])], [], true, false⟩
          .clearAllData).appData = [("d", [])] ∧
      autosaveWrites1 ⟨[("d", [])], [], true, false⟩ true = false := by
  constructor
  · exact ((readOnly_blocks_edits (fun _ => "g") ⟨[("d", [])], [], true, false⟩
      .clearAllData true).1 rfl rfl).1
  · exact (readOnly_blocks_edits (fun _ => "g") ⟨[("d", [])], [], true, false⟩
      .clearAllData true).2.1 rfl

/-! ### C10 — the add button only appends after an active last row -/

theorem createEmptyDailyData_eq (g : Nat → String) :
    createEmptyDailyData g
      = [("BOX", [blankItem (g 0)]), ("BOX SOUND", [blankItem (g 1)]),
         ("CONTROLE", [blankItem (g 2)]), ("CAMERA", [blankItem (g 3)]),
         ("CHIP", [blankItem (g 4)])] := rfl

/-- C10: variant 2's `handleAddItem` is guarded — when the category's
last row exists and is inactive nothing is dispatched (ledger and undo
history unchanged); an absent day behaves the same way because the
fallback blank record's last row is an inactive blank; a blank row is
appended exactly when the stored list is empty or its last row is
active, and in the non-empty dispatch case the row preceding the new
blank is active. -/
theorem addItem_guarded (genV genA : Nat → String) (s : Session2) (date cat : String) :
    (∀ last,
       ((lookupA ((lookupA s.appData date).getD (createEmptyDailyData genV)) cat).getD
            []).getLast? = some last →
       isItemActiveQt last = false →
       handleAddItem2 genV genA s date cat = s) ∧
    (cat ∈ CATEGORIES → lookupA s.appData date = none →
       handleAddItem2 genV genA s date cat = s) ∧
    (∀ dayD items, lookupA s.appData date = some dayD → lookupA dayD cat = some items →
       (items = [] ∨ ∃ last, items.getLast? = some last ∧ isItemActiveQt last = true) →
       (handleAddItem2 genV genA s date cat).appData
           = setA s.appData date (setA dayD cat (items ++ [blankItem (genA 0)])) ∧
       (handleAddItem2 genV genA s date cat).history
           = (s.appData :: s.history).take 10 ∧
       (items ≠ [] → ∃ last, items.getLast? = some last ∧ isItemActiveQt last = true)) := by
  refine ⟨?_, ?_, ?_⟩
  · intro last hlast hinact
    unfold handleAddItem2
    rw [hlast]
    simp [hinact]
  · intro hmem hnone
    have hblank : ∀ x : String, isItemActiveQt (blankItem x) = false := fun _ => rfl
    unfold handleAddItem2
    rw [hnone]
    simp only [Option.getD_none, createEmptyDailyData_eq]
    simp only [CATEGORIES, List.mem_cons, List.not_mem_nil, or_false] at hmem
    rcases hmem with h | h | h | h | h
    all_goals (subst h; simp [lookupA, hblank])
  · intro dayD items hd hc hcase
    have hdisp : handleAddItem2 genV genA s date cat
        = dispatchWithHistory2 genA s (.addItem date cat) := by
      unfold handleAddItem2
      rw [hd]
      simp only [Option.getD_some]
      rw [hc]
      simp only [Option.getD_some]
      rcases hcase with hnil | ⟨last, hlast, hact⟩
      · rw [hnil]
        rfl
      · rw [hlast]
        simp [hact]
    refine ⟨?_, ?_, ?_⟩
    · rw [hdisp]
      simp [dispatchWithHistory2, dataReducer, hd, hc]
    · rw [hdisp]
      rfl
    · intro hne
      rcases hcase with hnil | hex
      · exact absurd hnil hne
      · exact hex

/-- C10 witness: with a single inactive blank row as the category's last
item, pressing add changes nothing. -/
theorem addItem_guarded_witness :
    handleAddItem2 (fun _ => "v") (fun _ => "a")
        ⟨[("2024-03-01", [("BOX", [blankItem "b"])])], []⟩ "2024-03-01" "BOX"
      = ⟨[("2024-03-01", [("BOX", [blankItem "b"])])], []⟩ :=
  (addItem_guarded (fun _ => "v") (fun _ => "a")
      ⟨[("2024-03-01", [("BOX", [blankItem "b"])])], []⟩ "2024-03-01" "BOX").1
    (blankItem "b") (by decide) (by decide)

/-! ### C2 — undo restores earlier states until history is exhausted -/

theorem applyOps_append (L : AppData) (ops1 ops2 : List ((Nat → String) × LAction)) :
    applyOps L (ops1 ++ ops2) = applyOps (applyOps L ops1) ops2 := by
  induction ops1 generalizing L with
  | nil => rfl
  | cons hd rest ih =>
      obtain ⟨g, a⟩ := hd
      simp [applyOps, ih]

theorem prefixStates_append (L : AppData) (ops1 ops2 : List ((Nat → String) × LAction)) :
    prefixStates L (ops1 ++ ops2)
      = prefixStates L ops1 ++ prefixStates (applyOps L ops1) ops2 := by
  induction ops1 generalizing L with
  | nil => rfl
  | cons hd rest ih =>
      obtain ⟨g, a⟩ := hd
      simp [prefixStates, applyOps, ih]

theorem prefixStates_length (L : AppData) (ops : List ((Nat → String) × LAction)) :
    (prefixStates L ops).length = ops.length := by
  induction ops generalizing L with
  | nil => rfl
  | cons hd rest ih =>
      obtain ⟨g, a⟩ := hd
      simp [prefixStates, ih]

/-- With at most 10 edits in total, variant 2's history never truncates:
after the edits the ledger is the fold of the reducer and the history
holds every earlier state, most recent first. -/
theorem runMutations2_spec (ops : List ((Nat → String) × LAction)) (s : Session2)
    (h : s.history.length + ops.length ≤ 10) :
    runMutations2 s ops
      = ⟨applyOps s.appData ops, (prefixStates s.appData ops).reverse ++ s.history⟩ := by
  induction ops generalizing s with
  | nil => simp [runMutations2, applyOps, prefixStates]
  | cons hd rest ih =>
      obtain ⟨g, a⟩ := hd
      have htake : (s.appData :: s.history).take 10 = s.appData :: s.history := by
        apply List.take_of_length_le
        simp at h ⊢
        omega
      have hrec := ih ⟨dataReducer g s.appData a, s.appData :: s.history⟩
        (by simp at h ⊢; omega)
      simp only [runMutations2, dispatchWithHistory2, htake]
      rw [hrec]
      simp [applyOps, prefixStates]

/-- Popping the front `pre.length + 1` times lands on the snapshot
sitting just below `pre` on the stack. -/
theorem undoTimes2_pops (pre : List AppData) (X L : AppData) (hist : List AppData) :
    undoTimes2 ⟨X, pre ++ L :: hist⟩ (pre.length + 1) = ⟨L, hist⟩ := by
  induction pre generalizing X with
  | nil => rfl
  | cons p rest ih =>
      simp only [List.cons_append, List.length_cons]
      exact ih p

/-- Variant 3's undo has the same effect on the session as variant 2's,
only the empty-history report differs. -/
theorem handleUndo3_eq_fst (s : Session2) : handleUndo3 s = (handleUndo2 s).1 := by
  obtain ⟨ap, hist⟩ := s
  cases hist <;> rfl

theorem undoTimes3_eq (s : Session2) (n : Nat) : undoTimes3 s n = undoTimes2 s n := by
  induction n generalizing s with
  | zero => rfl
  | succ k ih =>
      simp only [undoTimes3, undoTimes2, handleUndo3_eq_fst]
      exact ih _

/-- C2 amended (the pop-and-restore `handleUndo` sites): starting from
an empty history, after any ≤ 10 user edits, undoing as many times as
the length of a suffix of the edit sequence restores exactly the ledger
reached by the prefix, in both the variant 2 and the variant 3 undo;
on an empty history, variant 2's undo (lines 754-763) leaves the state
unchanged and reports that nothing can be undone, while variant 3's
undo (lines 1766-1773) leaves the state unchanged silently, reporting
nothing. -/
theorem undo_restores (L0 : AppData) (ops1 ops2 : List ((Nat → String) × LAction))
    (hlen : (ops1 ++ ops2).length ≤ 10)
    (hmut : ∀ p ∈ ops1 ++ ops2, isMutatingAction p.2 = true) :
    (undoTimes2 (runMutations2 ⟨L0, []⟩ (ops1 ++ ops2)) ops2.length).appData
        = applyOps L0 ops1 ∧
      (∀ t : Session2, t.history = [] → handleUndo2 t = (t, true)) ∧
      (undoTimes3 (runMutations2 ⟨L0, []⟩ (ops1 ++ ops2)) ops2.length).appData
        = applyOps L0 ops1 ∧
      (∀ t : Session2, t.history = [] → handleUndo3 t = t) := by
  have h1 : (undoTimes2 (runMutations2 ⟨L0, []⟩ (ops1 ++ ops2)) ops2.length).appData
      = applyOps L0 ops1 := by
    have hrun := runMutations2_spec (ops1 ++ ops2) ⟨L0, []⟩ (by simpa using hlen)
    rw [hrun]
    cases ops2 with
    | nil =>
        simp [undoTimes2, applyOps_append]
    | cons hd rest =>
        obtain ⟨g, a⟩ := hd
        rw [prefixStates_append]
        simp only [prefixStates]
        have hrev : (prefixStates L0 ops1
              ++ applyOps L0 ops1 :: prefixStates (dataReducer g (applyOps L0 ops1) a) rest).reverse
            = (prefixStates (dataReducer g (applyOps L0 ops1) a) rest).reverse
                ++ applyOps L0 ops1 :: (prefixStates L0 ops1).reverse := by
          simp
        rw [hrev]
        have hlen2 : ((g, a) :: rest).length
            = ((prefixStates (dataReducer g (applyOps L0 ops1) a) rest).reverse).length + 1 := by
          simp [prefixStates_length]
        rw [List.append_nil, hlen2, undoTimes2_pops]
  refine ⟨h1, ?_, ?_, ?_⟩
  · intro t ht
    obtain ⟨tap, thist⟩ := t
    simp only at ht
    subst ht
    rfl
  · rw [undoTimes3_eq]
    exact h1
  · intro t ht
    obtain ⟨tap, thist⟩ := t
    simp only at ht
    subst ht
    rfl

/-- C2 witness: one edit then one undo restores the initial ledger in
both undo variants; on the empty-history session variant 2's undo
reports unavailable and variant 3's undo is a silent no-op. -/
theorem undo_restores_witness :
    (undoTimes2 (runMutations2 ⟨[("d", [("BOX", [blankItem "x"])])], []⟩
          ([] ++ [(fun _ => "f", LAction.clearAllData)])) 1).appData
        = [("d", [("BOX", [blankItem "x"])])] ∧
      handleUndo2 ⟨[], []⟩ = (⟨[], []⟩, true) ∧
      (undoTimes3 (runMutations2 ⟨[("d", [("BOX", [blankItem "x"])])], []⟩
          ([] ++ [(fun _ => "f", LAction.clearAllData)])) 1).appData
        = [("d", [("BOX", [blankItem "x"])])] ∧
      handleUndo3 ⟨[], []⟩ = ⟨[], []⟩ := by
  have h := undo_restores [("d", [("BOX", [blankItem "x"])])] []
    [(fun _ => "f", LAction.clearAllData)] (by decide)
    (by intro p hp; simp at hp; subst hp; rfl)
  exact ⟨h.1, h.2.1 ⟨[], []⟩ rfl, h.2.2.1, h.2.2.2 ⟨[], []⟩ rfl⟩

/-- C2 counterexample: variant 1's undo button (line 334) restores
`history[0]` without popping it, so after two edits, two undos yield the
state one edit back (twice), not the initial ledger, falsifying the
claim for this cited variant. -/
theorem undo_claim_fails_variant1 :
    (undoButton1 (undoButton1
        (dispatchWithHistory1 (fun _ => "f2")
          (dispatchWithHistory1 (fun _ => "f1")
            ⟨[("2024-03-01", [("BOX", [⟨"i1", "", "", "SN", []⟩])])], [], false, false⟩
            (.deleteItems "2024-03-01" "BOX" ["i1"]))
          .clearAllData))).appData
        ≠ [("2024-03-01", [("BOX", [⟨"i1", "", "", "SN", []⟩])])] ∧
      (undoButton1 (undoButton1
        (dispatchWithHistory1 (fun _ => "f2")
          (dispatchWithHistory1 (fun _ => "f1")
            ⟨[("2024-03-01", [("BOX", [⟨"i1", "", "", "SN", []⟩])])], [], false, false⟩
            (.deleteItems "2024-03-01" "BOX" ["i1"]))
          .clearAllData))).appData
        = [("2024-03-01", [("BOX", [blankItem "f1"])])] := by
  constructor <;> decide

/-! ### C1 — the footer month total ignores the anchor's day-of-month -/

theorem append_left_cancel_str (a b c : String) (h : a ++ b = a ++ c) : b = c := by
  apply String.ext
  have h2 : a.data ++ b.data = a.data ++ c.data := by
    simpa [String.data_append] using congrArg String.data h
  exact List.append_cancel_left h2

theorem pad2_inj_lt32 : ∀ d1 < 32, ∀ d2 < 32, pad2 d1 = pad2 d2 → d1 = d2 := by decide

theorem dateKeyOf_inj_day (y m d1 d2 : Nat) (h1 : d1 < 32) (h2 : d2 < 32)
    (h : dateKeyOf y m d1 = dateKeyOf y m d2) : d1 = d2 := by
  unfold dateKeyOf at h
  exact pad2_inj_lt32 d1 h1 d2 h2 (append_left_cancel_str _ _ _ h)

theorem sum_range_map_ite (n i0 : Nat) (hi0 : i0 < n) (a : Nat) (f g : Nat → Nat)
    (hf : ∀ i, i < n → f i = if i = i0 then a else g i) (hg : g i0 = 0) :
    ((List.range n).map f).sum = a + ((List.range n).map g).sum := by
  induction n with
  | zero => omega
  | succ k ih =>
      rw [List.range_succ, List.map_append, List.sum_append, List.map_append,
        List.sum_append]
      by_cases hik : i0 = k
      · subst hik
        have hmap : (List.range i0).map f = (List.range i0).map g := by
          apply List.map_congr_left
          intro i hi
          rw [hf i (by simp at hi; omega), if_neg (by simp at hi; omega)]
        rw [hmap]
        simp only [List.map_cons, List.map_nil, List.sum_cons, List.sum_nil]
        rw [hf i0 (by omega), if_pos rfl, hg]
        omega
      · have hik2 : i0 < k := by omega
        rw [ih hik2 (fun i hi => hf i (by omega))]
        simp only [List.map_cons, List.map_nil, List.sum_cons, List.sum_nil]
        rw [hf k (by omega), if_neg (by omega)]
        omega

/-- C1 amended: for a ledger with distinct day-keys, the footer's
`totalMonth` equals the sum of `calculateTotal` over **all** stored
day-keys of the anchor's month (days 1 through 31), independently of the
anchor's day-of-month — days of the month after the anchor day are
counted too. -/
theorem totalMonth_counts_whole_month (allData : AppData) (y m : Nat)
    (hnd : (allData.map Prod.fst).Nodup) :
    totalMonthYM allData y m
      = ((allData.filter (fun p => isMonthDayKey y m p.1)).map
          (fun p => calculateTotal p.2)).sum := by
  induction allData with
  | nil => simp [totalMonthYM, lookupA]
  | cons hd rest ih =>
      obtain ⟨k, v⟩ := hd
      simp only [List.map_cons, List.nodup_cons] at hnd
      obtain ⟨hkn, hnd2⟩ := hnd
      by_cases hk : isMonthDayKey y m k = true
      · obtain ⟨i0, hi0, hi0eq⟩ :
            ∃ i, i < 31 ∧ k = dateKeyOf y m (i + 1) := by
          simpa [isMonthDayKey, List.any_eq_true, List.mem_range] using hk
        have hstep : totalMonthYM ((k, v) :: rest) y m
            = ((List.range 31).map (fun i =>
                if k = dateKeyOf y m (i + 1) then calculateTotal v
                else match lookupA rest (dateKeyOf y m (i + 1)) with
                     | some dd => calculateTotal dd
                     | none => 0)).sum := by
          unfold totalMonthYM
          congr 1
          apply List.map_congr_left
          intro i hi
          simp only [lookupA]
          by_cases hik : k = dateKeyOf y m (i + 1)
          · simp [hik]
          · simp [hik]
        rw [hstep]
        have hrest : lookupA rest (dateKeyOf y m (i0 + 1)) = none := by
          rw [← hi0eq]
          exact lookupA_eq_none_of_not_mem rest k hkn
        have happ := sum_range_map_ite 31 i0 hi0 (calculateTotal v)
          (fun i =>
            if k = dateKeyOf y m (i + 1) then calculateTotal v
            else match lookupA rest (dateKeyOf y m (i + 1)) with
                 | some dd => calculateTotal dd
                 | none => 0)
          (fun i =>
            match lookupA rest (dateKeyOf y m (i + 1)) with
            | some dd => calculateTotal dd
            | none => 0)
          ?_ (by
            show (match lookupA rest (dateKeyOf y m (i0 + 1)) with
                  | some dd => calculateTotal dd
                  | none => 0) = 0
            rw [hrest])
        · rw [happ]
          have hrestsum :
              ((List.range 31).map (fun i =>
                match lookupA rest (dateKeyOf y m (i + 1)) with
                | some dd => calculateTotal dd
                | none => 0)).sum = totalMonthYM rest y m := rfl
          rw [hrestsum, ih hnd2, List.filter_cons, if_pos (by simpa using hk)]
          simp
        · intro i hi
          show (if k = dateKeyOf y m (i + 1) then calculateTotal v
                else match lookupA rest (dateKeyOf y m (i + 1)) with
                     | some dd => calculateTotal dd
                     | none => 0)
              = if i = i0 then calculateTotal v
                else match lookupA rest (dateKeyOf y m (i + 1)) with
                     | some dd => calculateTotal dd
                     | none => 0
          by_cases hii : i = i0
          · subst hii
            rw [if_pos hi0eq, if_pos rfl]
          · rw [if_neg ?_, if_neg hii]
            intro hkey
            apply hii
            have := dateKeyOf_inj_day y m (i0 + 1) (i + 1)
              (by omega) (by omega) (by rw [← hi0eq, hkey])
            omega
      · have hk2 : ∀ i, i < 31 → ¬ k = dateKeyOf y m (i + 1) := by
          simpa [isMonthDayKey, List.any_eq_true, List.mem_range] using hk
        have hstep : totalMonthYM ((k, v) :: rest) y m = totalMonthYM rest y m := by
          unfold totalMonthYM
          congr 1
          apply List.map_congr_left
          intro i hi
          simp only [lookupA]
          rw [if_neg (hk2 i (List.mem_range.mp hi))]
        rw [hstep, ih hnd2, List.filter_cons,
          if_neg (by simpa using hk)]

/-- C1 amended witness: a concrete two-day ledger of the anchor's month
whose whole-month sum is reproduced by the filter formulation. -/
theorem totalMonth_counts_whole_month_witness :
    totalMonthYM [("2024-03-01", [("BOX", [⟨"a", "", "", "S1", []⟩])]),
        ("2024-03-05", [("BOX", [⟨"b", "", "", "S2", []⟩])])] 2024 3
      = (([("2024-03-01", [("BOX", [⟨"a", "", "", "S1", []⟩])]),
          ("2024-03-05", [("BOX", [⟨"b", "", "", "S2", []⟩])])].filter
            (fun p => isMonthDayKey 2024 3 p.1)).map
          (fun p => calculateTotal p.2)).sum :=
  totalMonth_counts_whole_month
    [("2024-03-01", [("BOX", [⟨"a", "", "", "S1", []⟩])]),
     ("2024-03-05", [("BOX", [⟨"b", "", "", "S2", []⟩])])] 2024 3 (by decide)

/-- C1 counterexample: with days 2024-03-01 through 2024-03-05 each
holding one active BOX item, the code's `totalMonth` at anchor
2024-03-03 is 5 (the whole month), while the spec's month-to-date
formula gives 3 (days 1-3 only). -/
theorem totalMonth_ne_monthToDate_spec :
    totalMonth [("2024-03-01", [("BOX", [⟨"a", "", "", "S1", []⟩])]),
        ("2024-03-02", [("BOX", [⟨"b", "", "", "S2", []⟩])]),
        ("2024-03-03", [("BOX", [⟨"c", "", "", "S3", []⟩])]),
        ("2024-03-04", [("BOX", [⟨"d", "", "", "S4", []⟩])]),
        ("2024-03-05", [("BOX", [⟨"e", "", "", "S5", []⟩])])] "2024-03-03" = 5 ∧
      monthToDateTotalSpec [("2024-03-01", [("BOX", [⟨"a", "", "", "S1", []⟩])]),
        ("2024-03-02", [("BOX", [⟨"b", "", "", "S2", []⟩])]),
        ("2024-03-03", [("BOX", [⟨"c", "", "", "S3", []⟩])]),
        ("2024-03-04", [("BOX", [⟨"d", "", "", "S4", []⟩])]),
        ("2024-03-05", [("BOX", [⟨"e", "", "", "S5", []⟩])])] "2024-03-03" = 3 := by
  constructor <;> decide
